import Mathlib

/-!
# opennotrd: a verification development

Shallow embedding of the server side of the opennotr reverse tunnel
(`opennotrd/server.go`, `opennotrd/core/udpforward.go`) and proofs about it.

Conventions of the embedding:

* Go `string`s holding ASCII text are `String`s / `List Char`s;
  raw byte slices are lists of `Byte := Fin 256`.
* `int64` values are `Int`s.  The only arithmetic performed on them (`%` and `/`
  by a positive constant, on a positive operand) cannot overflow.
* Calls into the network, the clock and into packages that are not part of the
  embedded files are inputs of the model (oracles), and every observable call the
  code makes is recorded in a trace of events.
-/

namespace Opennotr

/-! ## `server.go`: `randomDomain` -/

/-- The constant `ALPHABET` of `randomDomain`. -/
def ALPHABET : List Char := "123456789abcdefghijklmnopqrstuvwxyz".toList

/-- The constant `BASE = int64(len(ALPHABET))` of `randomDomain`. -/
def BASE : Int := (ALPHABET.length : Int)

/-- The loop `for num > 0 { rs += string(ALPHABET[num%BASE]); num = num / BASE }`.
Go's `%` and `/` truncate toward zero (`Int.tmod`, `Int.tdiv`).  The first argument
bounds the number of iterations; `randomDomain` passes a bound that is never reached. -/
def randomDomainLoop : Nat → Int → List Char → List Char
  | 0, _, rs => rs
  | fuel + 1, num, rs =>
    if h : num > 0 then
      randomDomainLoop fuel (Int.tdiv num BASE)
        (rs ++ [ALPHABET.get ⟨(Int.tmod num BASE).toNat, by
          have h1 : Int.tmod num 35 < 35 := Int.tmod_lt_of_pos num (by decide)
          have h2 : 0 ≤ Int.tmod num 35 := Int.tmod_nonneg 35 (le_of_lt h)
          have h3 : BASE = 35 := by decide
          have h4 : ALPHABET.length = 35 := by decide
          rw [h3, h4]
          omega⟩])
    else rs

/-- The function `randomDomain(num int64) string`. -/
def randomDomain (num : Int) : String :=
  String.mk (randomDomainLoop num.toNat num [])

/-- The character `ALPHABET[d]` for a digit `d` (used in statements only). -/
def digitChar (d : Nat) : Char := ALPHABET.getD d '?'

/-! ## `server.go`: `publicIP` -/

/-- The call `strings.LastIndex(s, "\n")` for a one-character separator: the index of the
last occurrence of `c` in `s`, or `-1` when `c` does not occur.  Go counts bytes and the model
counts characters; the separator is ASCII, so the prefix cut at the index is the same text. -/
def lastIndex (c : Char) : List Char → Int
  | [] => -1
  | x :: xs =>
    let r := lastIndex c xs
    if r ≥ 0 then r + 1 else if x = c then 0 else -1

/-- The slice expression `str[:idx]`.  Go panics ("slice bounds out of range") unless
`0 ≤ idx ≤ len(str)`; the panic is `none`. -/
def sliceTo (str : List Char) (idx : Int) : Option (List Char) :=
  if 0 ≤ idx ∧ idx ≤ (str.length : Int) then some (str.take idx.toNat) else none

/-- What the HTTP round trip of `publicIP` produced: `http.Get` failed, `ioutil.ReadAll`
failed, or the body was read. -/
inductive HttpResult where
  | getError
  | readError
  | body (content : String)
  deriving DecidableEq, Repr

/-- The function `publicIP() string`, as a function of the HTTP round trip.  `none` is a
panic: the two explicit `panic(err)` calls, and the slice expression `str[:idx]`. -/
def publicIP : HttpResult → Option String
  | .getError => none
  | .readError => none
  | .body content =>
    let str := content.toList
    let idx := lastIndex '\n' str
    (sliceTo str idx).map String.mk

/-! ## `server.go`: sessions and the heartbeat loop -/

/-- The struct `Session`.  The connection and the data channels are not modelled;
`hbbuf` counts the signals that have been sent into the channel `hbbuf`. -/
structure Session where
  clientAddr : String
  activePing : Int
  hbbuf : Nat
  deriving DecidableEq, Repr

/-- The constructor `newSession`. -/
def newSession (clientAddr : String) : Session :=
  { clientAddr := clientAddr, activePing := 0, hbbuf := 0 }

/-- The range of an `int32`. -/
def isInt32 (x : Int) : Prop := -2147483648 ≤ x ∧ x ≤ 2147483647

instance (x : Int) : Decidable (isInt32 x) := by unfold isInt32; infer_instance

/-- Two's-complement wrap-around of `atomic.AddInt32`. -/
def wrapInt32 (x : Int) : Int := (x + 2147483648) % 4294967296 - 2147483648

/-- The reader's reaction to a `CmdHeartbeat` frame: `atomic.AddInt32(&sess.activePing, -1)`. -/
def readerHeartbeat (sess : Session) : Session :=
  { sess with activePing := wrapInt32 (sess.activePing - 1) }

/-- How one iteration of the `for range tick.C` loop of `heartbeat` ends: the loop goes on
to the next tick, returns because `finread` is closed, or breaks on "server ping timeout". -/
inductive HeartbeatStep where
  | next
  | finread
  | timeout
  deriving DecidableEq, Repr

/-- One iteration of the loop of `Server.heartbeat`, run when the ticker fires.
`finreadClosed` tells whether the reader has closed `finread`. -/
def heartbeatTick (finreadClosed : Bool) (sess : Session) : HeartbeatStep × Session :=
  if finreadClosed then (.finread, sess)
  else if sess.activePing ≥ 3 then (.timeout, sess)
  else (.next, { sess with hbbuf := sess.hbbuf + 1, activePing := wrapInt32 (sess.activePing + 1) })

/-- The atomic events on a session's ping counter: a tick of the heartbeat ticker (with
the state of `finread` at that moment) and a `CmdHeartbeat` frame handled by the reader. -/
inductive SessEvent where
  | tick (finreadClosed : Bool)
  | reply
  deriving DecidableEq, Repr

/-- Where `Server.heartbeat` stands after a sequence of events: still waiting for the next
tick, or returned at its `ticks`-th tick. -/
inductive HeartbeatResult where
  | waiting (sess : Session)
  | returned (reason : HeartbeatStep) (ticks : Nat) (sess : Session)
  deriving DecidableEq, Repr

/-- The loop of `Server.heartbeat` interleaved with the reader's decrements; the first
argument counts the ticks seen so far. -/
def heartbeatLoop : Nat → Session → List SessEvent → HeartbeatResult
  | _, sess, [] => .waiting sess
  | n, sess, .reply :: evs => heartbeatLoop n (readerHeartbeat sess) evs
  | n, sess, .tick fin :: evs =>
    match heartbeatTick fin sess with
    | (.next, sess') => heartbeatLoop (n + 1) sess' evs
    | (reason, sess') => .returned reason (n + 1) sess'

/-- The function `Server.heartbeat`. -/
def heartbeat (sess : Session) (evs : List SessEvent) : HeartbeatResult :=
  heartbeatLoop 0 sess evs

/-! ## `server.go`: `Server.onConn` -/

/-- Modelled from the spec: the VIP allocator `DHCP` (its file is not among the embedded
sources; `server.go` uses `SelectIP` and `GetCIDR`).  The spec keeps a FIFO queue of free
addresses and a set of addresses in use. -/
structure DHCP where
  cidr : String
  free : List String
  inUse : List String
  deriving DecidableEq, Repr

/-- Modelled from the spec: `select` of the VIP allocator, which "pops front and inserts into
the in-use set" and fails when no address is free (`none`). -/
def DHCP.SelectIP (d : DHCP) : Option (String × DHCP) :=
  match d.free with
  | [] => none
  | ip :: rest => some (ip, { d with free := rest, inUse := ip :: d.inUse })

/-- Modelled from the spec: `release` of the VIP allocator, which "moves the entry back to the
free queue tail" and is a "no-op if already free".  `Server.onConn` never calls it. -/
def DHCP.ReleaseIP (d : DHCP) (ip : String) : DHCP :=
  if ip ∈ d.inUse then { d with free := d.free ++ [ip], inUse := d.inUse.erase ip } else d

/-- Modelled from the spec: `cidr()` of the VIP allocator. -/
def DHCP.GetCIDR (d : DHCP) : String := d.cidr

/-- The message `proto.C2SAuth`, with the fields `onConn` reads. -/
structure C2SAuth where
  key : String
  domain : String
  http : Int
  https : Int
  grpc : Int
  deriving DecidableEq, Repr

/-- The message `proto.S2CAuth`. -/
structure S2CAuth where
  vip : String
  gateway : String
  domain : String
  deriving DecidableEq, Repr

/-- The struct `Server`: the configured key and root domain, whether `resolver` is non-nil,
the allocator, and the registry `sess` (a `sync.Map` from VIP to session). -/
structure Server where
  authKey : String
  domain : String
  hasResolver : Bool
  dhcp : DHCP
  sess : List (String × Session)
  deriving DecidableEq, Repr

/-- The calls `onConn` makes on its collaborators, in the order it makes them. -/
inductive ConnEvent where
  | readJSON
  | selectIP
  | getCIDR
  | writeJSON (reply : S2CAuth)
  | publicIP
  | applyDomain (domain : String) (ip : String)
  | addUpstream (http https grpc : Int) (domain : String) (vip : String)
  | delUpstream (domain : String) (http https grpc : Int)
  | sessStore (vip : String)
  | sessDelete (vip : String)
  | cancel
  | connClose
  deriving DecidableEq, Repr

/-- Everything `onConn` receives from outside: the outcome of `proto.ReadJSON` (`none` on
error), the clock, the outcome of `proto.WriteJSON`, the HTTP round trip of `publicIP()`,
the outcome of `resolver.ApplyDomain`, the remote address, and the events of the tunnel. -/
structure ConnInput where
  auth : Option C2SAuth
  now : Int
  writeOk : Bool
  ip : HttpResult
  applyOk : Bool
  clientAddr : String
  tunnel : List SessEvent
  deriving DecidableEq, Repr

/-- How a run of `onConn` stands: it returned, it panicked (in `publicIP()`), or it is still
inside `s.heartbeat` because the tunnel events ran out. -/
inductive ConnOutcome where
  | returned
  | panicked
  | inTunnel
  deriving DecidableEq, Repr

/-- The result of a run of `onConn`: the server afterwards, the calls made, the outcome. -/
structure ConnResult where
  server : Server
  trace : List ConnEvent
  outcome : ConnOutcome
  deriving DecidableEq, Repr

/-- The call `s.sess.Store(vip, sess)`. -/
def sessStore (m : List (String × Session)) (vip : String) (sess : Session) :
    List (String × Session) :=
  (vip, sess) :: m.filter (fun e => e.1 ≠ vip)

/-- The call `s.sess.Delete(vip)`. -/
def sessDelete (m : List (String × Session)) (vip : String) : List (String × Session) :=
  m.filter (fun e => e.1 ≠ vip)

/-- The part of `onConn` from `s.upstreamMgr.AddUpstream` on: the tunnel.  The deferred calls
run in reverse order once `s.heartbeat` returns: `cancel`, `s.sess.Delete`, `DelUpstream`,
`conn.Close`. -/
def onConnTunnel (s : Server) (i : ConnInput) (auth : C2SAuth) (domain vip : String)
    (trace : List ConnEvent) : ConnResult :=
  let trace := trace ++ [.addUpstream auth.http auth.https auth.grpc domain vip]
  let sess := newSession i.clientAddr
  let s := { s with sess := sessStore s.sess vip sess }
  let trace := trace ++ [.sessStore vip]
  match heartbeat sess i.tunnel with
  | .waiting _ => { server := s, trace := trace, outcome := .inTunnel }
  | .returned _ _ _ =>
    { server := { s with sess := sessDelete s.sess vip },
      trace := trace ++ [.cancel, .sessDelete vip,
        .delUpstream domain auth.http auth.https auth.grpc, .connClose],
      outcome := .returned }

/-- The function `Server.onConn`.  Every `return` runs the deferred `conn.Close()`. -/
def onConn (s : Server) (i : ConnInput) : ConnResult :=
  match i.auth with
  | none => { server := s, trace := [.readJSON, .connClose], outcome := .returned }
  | some auth =>
    if auth.key ≠ s.authKey then
      { server := s, trace := [.readJSON, .connClose], outcome := .returned }
    else
      let domain :=
        if auth.domain.length ≤ 0 then randomDomain i.now ++ "." ++ s.domain else auth.domain
      match s.dhcp.SelectIP with
      | none => { server := s, trace := [.readJSON, .selectIP, .connClose], outcome := .returned }
      | some (vip, dhcp) =>
        let s := { s with dhcp := dhcp }
        let reply : S2CAuth := { vip := vip, gateway := s.dhcp.GetCIDR, domain := domain }
        let trace := [.readJSON, .selectIP, .getCIDR, .writeJSON reply]
        if ¬ i.writeOk then
          { server := s, trace := trace ++ [.connClose], outcome := .returned }
        else if s.hasResolver then
          match publicIP i.ip with
          | none => { server := s, trace := trace ++ [.publicIP, .connClose], outcome := .panicked }
          | some ip =>
            let trace := trace ++ [.publicIP, .applyDomain domain ip]
            if ¬ i.applyOk then
              { server := s, trace := trace ++ [.connClose], outcome := .returned }
            else onConnTunnel s i auth domain vip trace
        else onConnTunnel s i auth domain vip trace

/-- A server with one free address, used to run `onConn` on concrete connections. -/
def exampleServer : Server :=
  { authKey := "K", domain := "example.com", hasResolver := false,
    dhcp := { cidr := "10.0.0.0/30", free := ["10.0.0.2"], inUse := [] },
    sess := [] }

/-- A connection with the right key on which writing the Auth reply fails. -/
def writeFailInput : ConnInput :=
  { auth := some { key := "K", domain := "a.example.com", http := 0, https := 0, grpc := 0 },
    now := 1700000000, writeOk := false, ip := .body "203.0.113.9\n", applyOk := true,
    clientAddr := "198.51.100.7:40000", tunnel := [] }

/-- A connection with the right key whose client never answers a heartbeat: four ticks. -/
def silentClientInput : ConnInput :=
  { auth := some { key := "K", domain := "a.example.com", http := 0, https := 0, grpc := 0 },
    now := 1700000000, writeOk := true, ip := .body "203.0.113.9\n", applyOk := true,
    clientAddr := "198.51.100.7:40000",
    tunnel := [.tick false, .tick false, .tick false, .tick false] }

/-! ## `core/udpforward.go`: addresses and `getOriginDst` -/

/-- A byte. -/
abbrev Byte := Fin 256

/-- An IPv4 address, `net.IPv4(a, b, c, d)`. -/
structure IPv4 where
  a : Byte
  b : Byte
  c : Byte
  d : Byte
  deriving DecidableEq, Repr

/-- The struct `net.UDPAddr` for IPv4. -/
structure UDPAddr where
  ip : IPv4
  port : Nat
  deriving DecidableEq, Repr

/-- The dotted-quad text `net.IP.String` prints for an IPv4 address. -/
def IPv4.String (ip : IPv4) : String :=
  toString ip.a.val ++ "." ++ toString ip.b.val ++ "." ++ toString ip.c.val ++ "." ++
    toString ip.d.val

/-- The call `net.SplitHostPort(addr.String())`: the host and the port as text. -/
def splitHostPort (addr : UDPAddr) : String × String :=
  (addr.ip.String, toString addr.port)

/-- A parsed control message, `syscall.SocketControlMessage`: `Header.Level`, `Header.Type`
and `Data`. -/
structure SocketControlMessage where
  level : Int
  typ : Int
  data : List Byte
  deriving DecidableEq, Repr

/-- The Linux constant `syscall.SOL_IP`. -/
def SOL_IP : Int := 0

/-- The Linux constant `syscall.IP_RECVORIGDSTADDR`. -/
def IP_RECVORIGDSTADDR : Int := 20

/-- The Linux constant `syscall.AF_INET`. -/
def AF_INET : Nat := 2

/-- The struct `syscall.RawSockaddrInet4` without its padding `Zero`. -/
structure RawSockaddrInet4 where
  family : Nat
  port : Nat
  addr : IPv4
  deriving DecidableEq, Repr

/-- The call `binary.Read(bytes.NewReader(msg.Data), binary.LittleEndian, originDstRaw)`:
it consumes the 16 bytes of a `RawSockaddrInet4` (two little-endian `uint16`, four address
bytes, eight bytes of padding) and fails (`none`) on shorter data. -/
def readRawSockaddrInet4 (data : List Byte) : Option RawSockaddrInet4 :=
  match data with
  | f0 :: f1 :: p0 :: p1 :: a0 :: a1 :: a2 :: a3 :: zero =>
    if 8 ≤ zero.length then
      some { family := f0.val + 256 * f1.val, port := p0.val + 256 * p1.val,
             addr := { a := a0, b := a1, c := a2, d := a3 } }
    else none
  | _ => none

/-- The loop of `getOriginDst` over the parsed messages; the first argument is the variable
`origindst` (`none` is nil).  The cast `(*[2]byte)(unsafe.Pointer(&pp.Port))` reads the
`uint16` as it lies in memory; the model is that of a little-endian host (amd64, arm64), where
`p[0]` is the low byte of `Port` and `p[1]` the high byte.  The function is written for such a
host: it decodes the kernel's native-endian `sockaddr_in` with `binary.LittleEndian`. -/
def getOriginDstLoop : Option UDPAddr → List SocketControlMessage → Option UDPAddr
  | origindst, [] => origindst
  | origindst, msg :: msgs =>
    if msg.level = SOL_IP ∧ msg.typ = IP_RECVORIGDSTADDR then
      match readRawSockaddrInet4 msg.data with
      | none => getOriginDstLoop origindst msgs
      | some originDstRaw =>
        if originDstRaw.family = AF_INET then
          let p0 := originDstRaw.port % 256
          let p1 := originDstRaw.port / 256
          getOriginDstLoop (some { ip := originDstRaw.addr, port := p0 * 256 + p1 }) msgs
        else getOriginDstLoop origindst msgs
    else getOriginDstLoop origindst msgs

/-- The function `getOriginDst`, as a function of what `syscall.ParseSocketControlMessage`
returned for the out-of-band bytes. -/
def getOriginDst (parsed : Except String (List SocketControlMessage)) : Except String UDPAddr :=
  match parsed with
  | .error e => .error e
  | .ok msgs =>
    match getOriginDstLoop none msgs with
    | none => .error "get origin dst fail"
    | some origindst => .ok origindst

/-- A message that carries an original destination: level `SOL_IP`, type
`IP_RECVORIGDSTADDR`, and data that decodes to a sockaddr of family `AF_INET`, that is at
least 16 bytes of which the first two are the little-endian encoding of `AF_INET`. -/
def carriesOrigDst (msg : SocketControlMessage) : Prop :=
  msg.level = SOL_IP ∧ msg.typ = IP_RECVORIGDSTADDR ∧ 16 ≤ msg.data.length ∧
    (msg.data.getD 0 0).val + 256 * (msg.data.getD 1 0).val = AF_INET

instance (msg : SocketControlMessage) : Decidable (carriesOrigDst msg) := by
  unfold carriesOrigDst; infer_instance

/-- The address a message carries: the IP is bytes 4 to 7 of the data in order, the port is
`256 * b0 + b1` for the bytes `b0`, `b1` at offsets 2 and 3 (network order). -/
def origDstOf (msg : SocketControlMessage) : UDPAddr :=
  { ip := { a := msg.data.getD 4 0, b := msg.data.getD 5 0, c := msg.data.getD 6 0,
            d := msg.data.getD 7 0 },
    port := 256 * (msg.data.getD 2 0).val + (msg.data.getD 3 0).val }

/-! ## `core/udpforward.go`: `UDPForward.ListenAndServe` -/

/-- The flow key `fmt.Sprintf("%s:%s:%s:%s", sip, sport, dip, dport)`. -/
def flowKey (sip sport dip dport : String) : String :=
  sip ++ ":" ++ sport ++ ":" ++ dip ++ ":" ++ dport

/-- One datagram returned by `lconn.ReadMsgUDP`, with the outcome of every call the loop may
make while handling it: the payload `buf[:nr]`, the parsed out-of-band data, the remote
address, whether `GetSession(dip)` finds a session, whether `OpenStream` succeeds, and
whether the header write and the body write succeed. -/
structure Datagram where
  payload : List Byte
  oob : Except String (List SocketControlMessage)
  raddr : UDPAddr
  sessFound : Bool
  openOk : Bool
  headerOk : Bool
  bodyOk : Bool

/-- The calls `ListenAndServe` makes on sub-streams.  `writeHeader` is the
`stream.Write(encodeProxyProtocol(network, sip, sport, dip, dport))` of the new-flow branch,
`writeBody` the `stream.Write(encode(buf[:nr]))` at the end of the loop body; `ok` tells
whether the write returned without error. -/
inductive UDPEvent where
  | openStream (stream : Nat) (dip : String)
  | writeHeader (stream : Nat) (network sip sport dip dport : String) (ok : Bool)
  | spawnForwardUDP (stream : Nat) (fromaddr toaddr : UDPAddr)
  | writeBody (stream : Nat) (payload : List Byte) (ok : Bool)
  | closeStream (stream : Nat)
  deriving DecidableEq, Repr

/-- The state of the loop of `ListenAndServe`: the map `streams` from flow key to sub-stream,
the number of sub-streams opened so far (the next one gets this number), and the calls made. -/
structure UDPState where
  streams : List (String × Nat)
  opened : Nat
  trace : List UDPEvent
  deriving DecidableEq, Repr

/-- The second half of the loop body: `streams.Load(key)` and the body write. -/
def writeBody (st : UDPState) (key : String) (d : Datagram) : UDPState :=
  match st.streams.lookup key with
  | none => st
  | some stream => { st with trace := st.trace ++ [.writeBody stream d.payload d.bodyOk] }

/-- One iteration of the loop of `ListenAndServe`, for a datagram that was read. -/
def onDatagram (st : UDPState) (d : Datagram) : UDPState :=
  match getOriginDst d.oob with
  | .error _ => st
  | .ok origindst =>
    let (dip, dport) := splitHostPort origindst
    let (sip, sport) := splitHostPort d.raddr
    let key := flowKey sip sport dip dport
    match st.streams.lookup key with
    | some _ => writeBody st key d
    | none =>
      if ¬ d.sessFound then st
      else if ¬ d.openOk then st
      else
        let stream := st.opened
        let st : UDPState :=
          { streams := (key, stream) :: st.streams.filter (fun e => e.1 ≠ key),
            opened := st.opened + 1,
            trace := st.trace ++
              [.openStream stream dip,
               .writeHeader stream "udp" sip sport "127.0.0.1" dport d.headerOk] }
        if ¬ d.headerOk then st
        else
          writeBody { st with trace := st.trace ++ [.spawnForwardUDP stream origindst d.raddr] }
            key d

/-- The function `UDPForward.ListenAndServe` from its read loop on: the datagrams read
before `ReadMsgUDP` fails, then the deferred `Close` of every stream in the map (in the order
of the model's list; `sync.Map.Range` fixes none).  The result is the list of calls made on
sub-streams.  The socket set-up before the loop makes no such call. -/
def ListenAndServe (ds : List Datagram) : List UDPEvent :=
  let st := ds.foldl onDatagram { streams := [], opened := 0, trace := [] }
  st.trace ++ st.streams.map (fun e => UDPEvent.closeStream e.2)

/-- Whether every body write in a trace comes after a successful header write on the same
sub-stream; the first argument lists the sub-streams whose header has been written. -/
def bodiesFollowHeader : List Nat → List UDPEvent → Bool
  | _, [] => true
  | seen, .writeHeader stream _ _ _ _ _ ok :: rest =>
    bodiesFollowHeader (if ok then stream :: seen else seen) rest
  | seen, .writeBody stream _ _ :: rest => seen.contains stream && bodiesFollowHeader seen rest
  | seen, _ :: rest => bodiesFollowHeader seen rest

/-! ## `core/udpforward.go`: `UDPForward.forwardUDP` -/

/-- The call `sendUDPViaRaw(tofd, fromaddr, toaddr, buf)` and whether it returned nil. -/
structure RawSend where
  fromaddr : UDPAddr
  toaddr : UDPAddr
  buf : List Byte
  ok : Bool
  deriving DecidableEq, Repr

/-- The call `io.ReadFull(stream, buf)` for a buffer of `n` bytes on a stream that delivers
the given bytes and then ends: the bytes read and the rest, or `none` for the error
(`io.EOF`, `io.ErrUnexpectedEOF`) when fewer than `n` bytes are left. -/
def readFull (n : Nat) (stream : List Byte) : Option (List Byte × List Byte) :=
  if n ≤ stream.length then some (stream.take n, stream.drop n) else none

/-- The call `binary.BigEndian.Uint16(hdr)`. -/
def bigEndianUint16 (hdr : List Byte) : Nat :=
  (hdr.getD 0 0).val * 256 + (hdr.getD 1 0).val

/-- The loop of `forwardUDP`.  `stream` is what the sub-stream still delivers before it
ends, `sendOk k` tells whether the `k`-th raw send succeeds, `k` counts the sends made; the
first argument bounds the number of iterations. -/
def forwardUDPLoop : Nat → List Byte → (Nat → Bool) → Nat → UDPAddr → UDPAddr → List RawSend
  | 0, _, _, _, _, _ => []
  | fuel + 1, stream, sendOk, k, fromaddr, toaddr =>
    match readFull 2 stream with
    | none => []
    | some (hdr, stream) =>
      let nlen := bigEndianUint16 hdr
      match readFull nlen stream with
      | none => []
      | some (buf, stream) =>
        { fromaddr := fromaddr, toaddr := toaddr, buf := buf, ok := sendOk k } ::
          forwardUDPLoop fuel stream sendOk (k + 1) fromaddr toaddr

/-- The function `UDPForward.forwardUDP`: the raw sends it makes, in order, until a read
fails.  Every iteration consumes at least two bytes, so `stream.length + 1` iterations are
never exhausted. -/
def forwardUDP (stream : List Byte) (sendOk : Nat → Bool) (fromaddr toaddr : UDPAddr) :
    List RawSend :=
  forwardUDPLoop (stream.length + 1) stream sendOk 0 fromaddr toaddr

/-- A body frame as the peer writes it: the length of the datagram as two bytes, big-endian,
then the datagram. -/
def bodyFrame (d : List Byte) : List Byte :=
  Fin.ofNat (d.length / 256) :: Fin.ofNat (d.length % 256) :: d

/-- A non-empty string of decimal digits. -/
def isDecimal (s : List Char) : Bool :=
  !s.isEmpty && s.all Char.isDigit

/-- A decimal port number as `net.SplitHostPort` returns it for a `UDPAddr`. -/
def isPort (s : String) : Bool := isDecimal s.toList

/-- A dotted-quad IPv4 string: four decimal fields of at most three digits, separated by
dots. -/
def isDottedQuad (s : String) : Bool :=
  let fields := s.toList.splitOn '.'
  fields.length == 4 && fields.all (fun f => isDecimal f && decide (f.length ≤ 3))

/-- A control message that carries the original destination `10.0.0.2:5300`. -/
def exampleOrigDstMsg : SocketControlMessage :=
  { level := 0, typ := 20,
    data := [2, 0, 20, 180, 10, 0, 0, 2, 0, 0, 0, 0, 0, 0, 0, 0] }

/-- A control message of another kind (level `SOL_SOCKET`). -/
def exampleOtherMsg : SocketControlMessage :=
  { level := 1, typ := 29, data := [0, 0, 0, 0, 0, 0, 0, 0] }

/-- The datagram `PING` from `198.51.100.7:40000` to `10.0.0.2:5300`, a new flow whose
owner is connected and whose sub-stream opens, with a failing header write. -/
def headerFailDatagram : Datagram :=
  { payload := [80, 73, 78, 71], oob := .ok [exampleOrigDstMsg],
    raddr := { ip := { a := 198, b := 51, c := 100, d := 7 }, port := 40000 },
    sessFound := true, openOk := true, headerOk := false, bodyOk := true }

/-- A second datagram of the same flow; its body write succeeds. -/
def nextDatagram : Datagram :=
  { payload := [80, 79, 78, 71], oob := .ok [exampleOrigDstMsg],
    raddr := { ip := { a := 198, b := 51, c := 100, d := 7 }, port := 40000 },
    sessFound := true, openOk := true, headerOk := true, bodyOk := true }

/-- The decimal digits of `n`, most significant first, as `toString` prints them. -/
def decimalDigits (n : Nat) : List Nat :=
  if n = 0 then [0] else (Nat.digits 10 n).reverse

/-- Whether, on every sub-stream, the first write attempted is the header and the header is
attempted once: a header write must hit a sub-stream without any earlier write, a body write a
sub-stream with an earlier header write (successful or not).  The first argument lists the
sub-streams written so far; the result is that list at the end, or `none` on a violation. -/
def headerAttemptedFirst : List Nat → List UDPEvent → Option (List Nat)
  | seen, [] => some seen
  | seen, .writeHeader stream _ _ _ _ _ _ :: rest =>
    if stream ∈ seen then none else headerAttemptedFirst (stream :: seen) rest
  | seen, .writeBody stream _ _ :: rest =>
    if stream ∈ seen then headerAttemptedFirst seen rest else none
  | seen, _ :: rest => headerAttemptedFirst seen rest

/-- The invariant of the loop of `ListenAndServe`: the trace so far passes the check, every
sub-stream in the map has had its header write, and every sub-stream written is already
counted in `opened`. -/
def UDPInv (st : UDPState) : Prop :=
  ∃ seen, headerAttemptedFirst [] st.trace = some seen ∧
    (∀ e ∈ st.streams, e.2 ∈ seen) ∧ (∀ stream ∈ seen, stream < st.opened)

/-! ## Theorems -/

theorem BASE_eq : BASE = 35 := by decide

theorem ALPHABET_length : ALPHABET.length = 35 := by decide

theorem digitChar_eq_get (d : Nat) (h : d < ALPHABET.length) :
    ALPHABET.get ⟨d, h⟩ = digitChar d := by
  unfold digitChar
  rw [List.getD_eq_getElem _ _ h]
  rfl

/-- On a natural number the loop appends the base-35 digits, least significant first. -/
theorem randomDomainLoop_eq (fuel : Nat) :
    ∀ (n : Nat) (rs : List Char), n ≤ fuel →
      randomDomainLoop fuel (n : Int) rs = rs ++ (Nat.digits 35 n).map digitChar := by
  induction fuel with
  | zero =>
    intro n rs hn
    have : n = 0 := by omega
    subst this
    simp [randomDomainLoop]
  | succ f ih =>
    intro n rs hn
    rcases Nat.eq_zero_or_pos n with h0 | hpos
    · subst h0
      simp [randomDomainLoop]
    · have hgt : (n : Int) > 0 := by exact_mod_cast hpos
      have hdiv : Int.tdiv (n : Int) BASE = ((n / 35 : Nat) : Int) := by
        rw [BASE_eq, Int.tdiv_eq_ediv (by omega) (by decide)]
        norm_cast
      have hmod : (Int.tmod (n : Int) BASE).toNat = n % 35 := by
        rw [BASE_eq, Int.tmod_eq_emod (by omega) (by decide)]
        omega
      rw [randomDomainLoop, dif_pos hgt, hdiv, ih (n / 35) _ (by omega)]
      rw [Nat.digits_def' (by decide) hpos, List.map_cons, List.append_assoc]
      congr 1
      simp only [List.singleton_append, List.cons.injEq, and_true]
      rw [digitChar_eq_get]
      congr 1

theorem randomDomain_toList (n : Nat) :
    (randomDomain (n : Int)).toList = (Nat.digits 35 n).map digitChar := by
  unfold randomDomain
  simp [randomDomainLoop_eq n n [] (le_refl n)]

theorem digits_getElem? (i : Nat) :
    ∀ n : Nat, i < (Nat.digits 35 n).length →
      (Nat.digits 35 n)[i]? = some (n / 35 ^ i % 35) := by
  induction i with
  | zero =>
    intro n h
    rcases Nat.eq_zero_or_pos n with h0 | hpos
    · subst h0; simp at h
    · rw [Nat.digits_def' (by decide) hpos]; simp
  | succ j ih =>
    intro n h
    rcases Nat.eq_zero_or_pos n with h0 | hpos
    · subst h0; simp at h
    · rw [Nat.digits_def' (by decide) hpos] at h ⊢
      simp only [List.length_cons, Nat.add_lt_add_iff_right] at h
      rw [List.getElem?_cons_succ, ih (n / 35) h, Nat.div_div_eq_div_mul, pow_succ, mul_comm]

theorem pow_le_of_lt_digits_length (n k : Nat) (h : k < (Nat.digits 35 n).length) :
    35 ^ k ≤ n := by
  rcases Nat.eq_zero_or_pos n with h0 | hpos
  · subst h0; simp at h
  · rw [Nat.digits_len 35 n (by decide) (by omega)] at h
    exact Nat.pow_le_of_le_log (by omega) (by omega)

theorem randomDomain_nonpos (num : Int) (h : num ≤ 0) : randomDomain num = "" := by
  unfold randomDomain
  cases hf : num.toNat with
  | zero => rfl
  | succ f => omega

theorem digitChar_getElem? (d : Nat) (h : d < 35) : ALPHABET[d]? = some (digitChar d) := by
  unfold digitChar
  rw [List.getD_eq_getElem?_getD]
  have : d < ALPHABET.length := by rw [ALPHABET_length]; exact h
  rw [List.getElem?_eq_getElem this]
  rfl

/-- C4: for `num > 0`, `randomDomain num` is the base-35 representation of `num`,
least significant digit first, over `ALPHABET`: the `i`-th character is
`ALPHABET[(num / 35^i) mod 35]`, the length is the least `k` with `35^k > num`;
for `num ≤ 0` the result is the empty string. -/
theorem randomDomain_base35 (num : Int) :
    (0 < num →
      (∀ i : Nat, i < (randomDomain num).length →
        (randomDomain num).toList[i]? = ALPHABET[(num / 35 ^ i % 35).toNat]?) ∧
      num < 35 ^ (randomDomain num).length ∧
      (∀ k : Nat, k < (randomDomain num).length → 35 ^ k ≤ num)) ∧
    (num ≤ 0 → randomDomain num = "") := by
  refine ⟨fun hpos => ?_, randomDomain_nonpos num⟩
  obtain ⟨n, rfl⟩ : ∃ n : Nat, num = (n : Int) := ⟨num.toNat, by omega⟩
  have hlen : (randomDomain (n : Int)).length = (Nat.digits 35 n).length := by
    have h := congrArg List.length (randomDomain_toList n)
    rw [List.length_map] at h
    exact h
  rw [hlen, randomDomain_toList]
  refine ⟨fun i hi => ?_, ?_, fun k hk => ?_⟩
  · have hidx : ((n : Int) / 35 ^ i % 35).toNat = n / 35 ^ i % 35 := by
      have : ((n : Int) / 35 ^ i % 35) = ((n / 35 ^ i % 35 : Nat) : Int) := by norm_cast
      rw [this]; rfl
    rw [hidx, List.getElem?_map, digits_getElem? i n hi,
      digitChar_getElem? _ (Nat.mod_lt _ (by decide))]
    rfl
  · exact_mod_cast Nat.lt_base_pow_length_digits (b := 35) (m := n) (by decide)
  · exact_mod_cast pow_le_of_lt_digits_length n k hk

theorem randomDomain_base35_witness :
    (0 : Int) < 1700000000 ∧
    (randomDomain 1700000000).toList[2]? = ALPHABET[((1700000000 : Int) / 35 ^ 2 % 35).toNat]? ∧
    (1700000000 : Int) < 35 ^ (randomDomain 1700000000).length ∧
    35 ^ 5 ≤ (1700000000 : Int) ∧
    randomDomain 1700000000 = "l46vdx" ∧
    randomDomain (-7) = "" :=
  ⟨by decide,
   ((randomDomain_base35 1700000000).1 (by decide)).1 2 (by decide),
   ((randomDomain_base35 1700000000).1 (by decide)).2.1,
   ((randomDomain_base35 1700000000).1 (by decide)).2.2 5 (by decide),
   by decide,
   (randomDomain_base35 (-7)).2 (by decide)⟩

theorem digitChar_injOn :
    ∀ a < 35, ∀ b < 35, digitChar a = digitChar b → a = b := by decide

theorem digitChar_mem (d : Nat) (h : d < 35) : digitChar d ∈ ALPHABET :=
  List.getElem?_mem (digitChar_getElem? d h)

theorem map_digitChar_injective :
    ∀ l₁ l₂ : List Nat, (∀ d ∈ l₁, d < 35) → (∀ d ∈ l₂, d < 35) →
      l₁.map digitChar = l₂.map digitChar → l₁ = l₂ := by
  intro l₁
  induction l₁ with
  | nil =>
    intro l₂ _ _ h
    cases l₂ with
    | nil => rfl
    | cons b t => simp at h
  | cons a t ih =>
    intro l₂ h₁ h₂ h
    cases l₂ with
    | nil => simp at h
    | cons b u =>
      simp only [List.map_cons, List.cons.injEq] at h
      have hab : a = b :=
        digitChar_injOn a (h₁ a (List.mem_cons_self _ _)) b (h₂ b (List.mem_cons_self _ _)) h.1
      have htu : t = u :=
        ih u (fun d hd => h₁ d (List.mem_cons_of_mem _ hd))
          (fun d hd => h₂ d (List.mem_cons_of_mem _ hd)) h.2
      rw [hab, htu]

theorem randomDomain_chars (num : Int) : ∀ c ∈ (randomDomain num).toList, c ∈ ALPHABET := by
  intro c hc
  rcases le_or_lt num 0 with hle | hpos
  · rw [randomDomain_nonpos num hle] at hc
    simp at hc
  · obtain ⟨n, rfl⟩ : ∃ n : Nat, num = (n : Int) := ⟨num.toNat, by omega⟩
    rw [randomDomain_toList, List.mem_map] at hc
    obtain ⟨d, hd, rfl⟩ := hc
    exact digitChar_mem d (Nat.digits_lt_base (by decide) hd)

/-- C10: `randomDomain` is injective on positive integers, and a generated label
never contains the character `0` or the character `.`. -/
theorem randomDomain_injective :
    (∀ num1 num2 : Int, 0 < num1 → 0 < num2 →
      randomDomain num1 = randomDomain num2 → num1 = num2) ∧
    (∀ num : Int, '0' ∉ (randomDomain num).toList ∧ '.' ∉ (randomDomain num).toList) := by
  constructor
  · intro num1 num2 h1 h2 h
    obtain ⟨a, rfl⟩ : ∃ n : Nat, num1 = (n : Int) := ⟨num1.toNat, by omega⟩
    obtain ⟨b, rfl⟩ : ∃ n : Nat, num2 = (n : Int) := ⟨num2.toNat, by omega⟩
    have hl := congrArg String.toList h
    rw [randomDomain_toList, randomDomain_toList] at hl
    have hd : Nat.digits 35 a = Nat.digits 35 b :=
      map_digitChar_injective _ _ (fun d hd => Nat.digits_lt_base (by decide) hd)
        (fun d hd => Nat.digits_lt_base (by decide) hd) hl
    have : a = b := by
      rw [← Nat.ofDigits_digits 35 a, ← Nat.ofDigits_digits 35 b, hd]
    exact_mod_cast this
  · intro num
    have h0 : '0' ∉ ALPHABET := by decide
    have hdot : '.' ∉ ALPHABET := by decide
    exact ⟨fun h => h0 (randomDomain_chars num _ h), fun h => hdot (randomDomain_chars num _ h)⟩

theorem randomDomain_injective_witness :
    (0 : Int) < 1700000000 ∧ (0 : Int) < 1699999965 + 35 ∧
    randomDomain 1700000000 = randomDomain (1699999965 + 35) ∧
    (1700000000 : Int) = 1699999965 + 35 ∧
    '0' ∉ (randomDomain 1700000000).toList :=
  ⟨by decide, by decide, by decide,
   randomDomain_injective.1 1700000000 (1699999965 + 35) (by decide) (by decide) (by decide),
   (randomDomain_injective.2 1700000000).1⟩

/-! ### `publicIP` -/

theorem lastIndex_ge (c : Char) (s : List Char) : -1 ≤ lastIndex c s := by
  induction s with
  | nil => simp [lastIndex]
  | cons x xs ih =>
    simp only [lastIndex]
    split_ifs <;> omega

theorem lastIndex_of_not_mem (c : Char) (s : List Char) (h : c ∉ s) : lastIndex c s = -1 := by
  induction s with
  | nil => rfl
  | cons x xs ih =>
    simp only [List.mem_cons, not_or] at h
    simp only [lastIndex, ih h.2]
    have hx : ¬ x = c := fun e => h.1 e.symm
    simp [hx]

theorem lastIndex_append_self (c : Char) (s : List Char) :
    lastIndex c (s ++ [c]) = (s.length : Int) := by
  induction s with
  | nil => simp [lastIndex]
  | cons x xs ih =>
    have hlen : (0 : Int) ≤ (xs.length : Int) := by omega
    have ih' : lastIndex c (xs.append [c]) = (xs.length : Int) := ih
    simp only [List.cons_append, lastIndex, List.length_cons]
    rw [ih']
    simp [hlen]

/-- A body without any newline makes `publicIP` panic. -/
theorem publicIP_no_newline (content : String) (h : '\n' ∉ content.toList) :
    publicIP (.body content) = none := by
  have h' : lastIndex '\n' content.toList = -1 := lastIndex_of_not_mem _ _ h
  unfold publicIP sliceTo
  simp only [h']
  simp

/-- A body that ends in a newline is returned without that last character. -/
theorem publicIP_trailing_newline (s : List Char) :
    publicIP (.body (String.mk (s ++ ['\n']))) = some (String.mk s) := by
  simp [publicIP, sliceTo, lastIndex_append_self]

/-- C7 (the code departs from the claim): a body without a newline is not returned
unchanged, `publicIP` panics on it; a body with a newline that is not its last character is
cut at that newline.  A body that ends in a newline does lose just that character. -/
theorem publicIP_panics_without_newline :
    publicIP (.body "203.0.113.9") = none ∧
    publicIP (.body "") = none ∧
    publicIP (.body "203.0.113.9\nx") = some "203.0.113.9" ∧
    publicIP (.body "203.0.113.9\n") = some "203.0.113.9" := by
  decide

/-! ### `Server.heartbeat` -/

theorem wrapInt32_of_isInt32 (x : Int) (h : isInt32 x) : wrapInt32 x = x := by
  unfold isInt32 at h
  unfold wrapInt32
  omega

theorem heartbeatTick_timeout (sess : Session) (h : sess.activePing ≥ 3) :
    heartbeatTick false sess = (.timeout, sess) := by
  simp [heartbeatTick, h]

theorem heartbeatTick_next (sess : Session) (hr : isInt32 sess.activePing)
    (h : sess.activePing < 3) :
    heartbeatTick false sess =
      (.next, { sess with hbbuf := sess.hbbuf + 1, activePing := sess.activePing + 1 }) := by
  have hw : wrapInt32 (sess.activePing + 1) = sess.activePing + 1 :=
    wrapInt32_of_isInt32 _ (by unfold isInt32 at hr ⊢; omega)
  have hn : ¬ sess.activePing ≥ 3 := by omega
  simp [heartbeatTick, hn, hw]

/-- From a counter of `0` and without replies, `k ≤ 3` ticks leave the loop waiting with
`k` heartbeats sent and the counter at `k`. -/
theorem heartbeat_unanswered (sess : Session) (h0 : sess.activePing = 0) (k : Nat) (hk : k ≤ 3) :
    heartbeat sess (List.replicate k (.tick false)) =
      .waiting { sess with hbbuf := sess.hbbuf + k, activePing := (k : Int) } := by
  obtain ⟨addr, ping, hb⟩ := sess
  simp only at h0
  subst h0
  interval_cases k <;>
    simp [heartbeat, heartbeatLoop, heartbeatTick, wrapInt32, List.replicate]

/-- From a counter of `0` and without replies, the fourth tick ends the loop on a timeout. -/
theorem heartbeat_fourth_tick (sess : Session) (h0 : sess.activePing = 0)
    (later : List SessEvent) :
    heartbeat sess (List.replicate 4 (.tick false) ++ later) =
      .returned .timeout 4 { sess with hbbuf := sess.hbbuf + 3, activePing := 3 } := by
  obtain ⟨addr, ping, hb⟩ := sess
  simp only at h0
  subst h0
  simp [heartbeat, heartbeatLoop, heartbeatTick, wrapInt32, List.replicate]

/-- C2: one tick of `Server.heartbeat` while the reader runs: with the counter at `3` or
more the loop ends, sends nothing and leaves the counter alone; otherwise it sends exactly
one heartbeat and adds exactly one to the counter.  From a counter of `0` and without any
reply, ticks 1 to 3 send one heartbeat each and the fourth tick ends the loop on a timeout
with three heartbeats sent. -/
theorem heartbeat_step_and_liveness (sess : Session) (hr : isInt32 sess.activePing) :
    (sess.activePing ≥ 3 → heartbeatTick false sess = (.timeout, sess)) ∧
    (sess.activePing < 3 →
      heartbeatTick false sess =
        (.next, { sess with hbbuf := sess.hbbuf + 1, activePing := sess.activePing + 1 })) ∧
    (sess.activePing = 0 →
      (∀ k : Nat, k ≤ 3 →
        heartbeat sess (List.replicate k (.tick false)) =
          .waiting { sess with hbbuf := sess.hbbuf + k, activePing := (k : Int) }) ∧
      (∀ later : List SessEvent,
        heartbeat sess (List.replicate 4 (.tick false) ++ later) =
          .returned .timeout 4 { sess with hbbuf := sess.hbbuf + 3, activePing := 3 })) :=
  ⟨heartbeatTick_timeout sess, heartbeatTick_next sess hr,
   fun h0 => ⟨heartbeat_unanswered sess h0, heartbeat_fourth_tick sess h0⟩⟩

theorem heartbeat_step_and_liveness_witness :
    isInt32 (newSession "198.51.100.7:40000").activePing ∧
    heartbeatTick false (newSession "198.51.100.7:40000") =
      (.next, { clientAddr := "198.51.100.7:40000", activePing := 1, hbbuf := 1 }) ∧
    heartbeatTick false { clientAddr := "a", activePing := 3, hbbuf := 3 } =
      (.timeout, { clientAddr := "a", activePing := 3, hbbuf := 3 }) ∧
    heartbeat (newSession "198.51.100.7:40000") (List.replicate 3 (.tick false)) =
      .waiting { clientAddr := "198.51.100.7:40000", activePing := 3, hbbuf := 3 } ∧
    heartbeat (newSession "198.51.100.7:40000") (List.replicate 4 (.tick false) ++ []) =
      .returned .timeout 4 { clientAddr := "198.51.100.7:40000", activePing := 3, hbbuf := 3 } :=
  ⟨by decide,
   (heartbeat_step_and_liveness (newSession "198.51.100.7:40000") (by decide)).2.1 (by decide),
   (heartbeat_step_and_liveness { clientAddr := "a", activePing := 3, hbbuf := 3 }
      (by decide)).1 (by decide),
   ((heartbeat_step_and_liveness (newSession "198.51.100.7:40000") (by decide)).2.2 rfl).1 3
      (by decide),
   ((heartbeat_step_and_liveness (newSession "198.51.100.7:40000") (by decide)).2.2 rfl).2 []⟩

/-! ### `Server.onConn` -/

/-- A connection that fails authentication only reads the Auth frame and closes. -/
theorem onConn_of_auth_failure (s : Server) (i : ConnInput)
    (h : i.auth = none ∨ ∃ a, i.auth = some a ∧ a.key ≠ s.authKey) :
    onConn s i = { server := s, trace := [.readJSON, .connClose], outcome := .returned } := by
  rcases h with h | ⟨a, ha, hk⟩
  · simp [onConn, h]
  · simp [onConn, ha, hk]

/-- C3: when the Auth frame cannot be read or its key differs from the configured key,
`onConn` returns without calling `SelectIP`, without writing an Auth reply, without applying
a domain and without storing a session: the allocator and the registry are unchanged. -/
theorem onConn_auth_failure_no_effect (s : Server) (i : ConnInput)
    (h : i.auth = none ∨ ∃ a, i.auth = some a ∧ a.key ≠ s.authKey) :
    (onConn s i).outcome = .returned ∧
    (onConn s i).server.dhcp = s.dhcp ∧
    (onConn s i).server.sess = s.sess ∧
    (onConn s i).server = s ∧
    ConnEvent.selectIP ∉ (onConn s i).trace ∧
    (∀ reply, ConnEvent.writeJSON reply ∉ (onConn s i).trace) ∧
    (∀ domain ip, ConnEvent.applyDomain domain ip ∉ (onConn s i).trace) ∧
    (∀ vip, ConnEvent.sessStore vip ∉ (onConn s i).trace) ∧
    ConnEvent.connClose ∈ (onConn s i).trace := by
  rw [onConn_of_auth_failure s i h]
  simp

theorem onConn_auth_failure_no_effect_witness :
    (writeFailInput.auth = none ∨
      ∃ a, writeFailInput.auth = some a ∧ a.key ≠ { exampleServer with authKey := "L" }.authKey) ∧
    (onConn { exampleServer with authKey := "L" } writeFailInput).server.dhcp =
      exampleServer.dhcp ∧
    ConnEvent.selectIP ∉ (onConn { exampleServer with authKey := "L" } writeFailInput).trace :=
  ⟨Or.inr ⟨_, rfl, by decide⟩,
   (onConn_auth_failure_no_effect { exampleServer with authKey := "L" } writeFailInput
      (Or.inr ⟨_, rfl, by decide⟩)).2.1,
   (onConn_auth_failure_no_effect { exampleServer with authKey := "L" } writeFailInput
      (Or.inr ⟨_, rfl, by decide⟩)).2.2.2.2.1⟩

/-- The tunnel part of `onConn` does not touch the allocator. -/
theorem onConnTunnel_dhcp (s : Server) (i : ConnInput) (auth : C2SAuth) (domain vip : String)
    (trace : List ConnEvent) : (onConnTunnel s i auth domain vip trace).server.dhcp = s.dhcp := by
  unfold onConnTunnel
  simp only
  split <;> rfl

/-- Once `SelectIP` has succeeded, the allocator is left as `SelectIP` made it: on every
path of `onConn` the selected address is still in use at the end. -/
theorem onConn_keeps_vip (s : Server) (i : ConnInput) (auth : C2SAuth) (vip : String)
    (dhcp : DHCP) (ha : i.auth = some auth) (hk : auth.key = s.authKey)
    (hs : s.dhcp.SelectIP = some (vip, dhcp)) :
    (onConn s i).server.dhcp = dhcp := by
  unfold onConn
  simp only [ha, hk, hs, ne_eq, not_true_eq_false, if_false]
  repeat' split
  all_goals first
    | rfl
    | exact onConnTunnel_dhcp _ _ _ _ _ _

/-- A successful `SelectIP` changes the allocator. -/
theorem SelectIP_ne (d : DHCP) (vip : String) (d' : DHCP) (h : d.SelectIP = some (vip, d')) :
    d' ≠ d := by
  unfold DHCP.SelectIP at h
  cases hf : d.free with
  | nil => simp [hf] at h
  | cons ip rest =>
    simp only [hf, Option.some.injEq, Prod.mk.injEq] at h
    intro e
    have hl := congrArg (fun x => x.inUse.length) e
    rw [← h.2] at hl
    simp at hl

/-- C1 (the code departs from the claim): `onConn` selects `10.0.0.2` and returns, once
because writing the Auth reply fails and once because the heartbeat times out, and both
times the address is still in use and the allocator differs from what it was before. -/
theorem onConn_does_not_release_vip :
    exampleServer.dhcp.SelectIP =
      some ("10.0.0.2", { cidr := "10.0.0.0/30", free := [], inUse := ["10.0.0.2"] }) ∧
    (onConn exampleServer writeFailInput).outcome = .returned ∧
    (onConn exampleServer writeFailInput).server.dhcp =
      { cidr := "10.0.0.0/30", free := [], inUse := ["10.0.0.2"] } ∧
    (onConn exampleServer writeFailInput).server.dhcp ≠ exampleServer.dhcp ∧
    (onConn exampleServer silentClientInput).outcome = .returned ∧
    (onConn exampleServer silentClientInput).server.dhcp =
      { cidr := "10.0.0.0/30", free := [], inUse := ["10.0.0.2"] } ∧
    (onConn exampleServer silentClientInput).server.dhcp ≠ exampleServer.dhcp ∧
    (onConn exampleServer silentClientInput).server.sess = [] := by
  decide

/-! ### `getOriginDst` -/

theorem readRawSockaddrInet4_eq (data : List Byte) :
    readRawSockaddrInet4 data =
      if 16 ≤ data.length then
        some { family := (data.getD 0 0).val + 256 * (data.getD 1 0).val,
               port := (data.getD 2 0).val + 256 * (data.getD 3 0).val,
               addr := { a := data.getD 4 0, b := data.getD 5 0, c := data.getD 6 0,
                         d := data.getD 7 0 } }
      else none := by
  rcases data with _ | ⟨f0, _ | ⟨f1, _ | ⟨p0, _ | ⟨p1, _ | ⟨a0, _ | ⟨a1, _ | ⟨a2, _ | ⟨a3, zero⟩⟩⟩⟩⟩⟩⟩⟩
  all_goals simp [readRawSockaddrInet4]

/-- One iteration of the loop of `getOriginDst`. -/
theorem getOriginDstLoop_cons (acc : Option UDPAddr) (m : SocketControlMessage)
    (ms : List SocketControlMessage) :
    getOriginDstLoop acc (m :: ms) =
      if carriesOrigDst m then getOriginDstLoop (some (origDstOf m)) ms
      else getOriginDstLoop acc ms := by
  rw [getOriginDstLoop, readRawSockaddrInet4_eq]
  unfold carriesOrigDst
  by_cases h1 : m.level = SOL_IP ∧ m.typ = IP_RECVORIGDSTADDR
  · by_cases h2 : 16 ≤ m.data.length
    · by_cases h3 : (m.data.getD 0 0).val + 256 * (m.data.getD 1 0).val = AF_INET
      · have hc : m.level = SOL_IP ∧ m.typ = IP_RECVORIGDSTADDR ∧ 16 ≤ m.data.length ∧
            (m.data.getD 0 0).val + 256 * (m.data.getD 1 0).val = AF_INET :=
          ⟨h1.1, h1.2, h2, h3⟩
        have hp : ((m.data.getD 2 0).val + 256 * (m.data.getD 3 0).val) % 256 * 256 +
            ((m.data.getD 2 0).val + 256 * (m.data.getD 3 0).val) / 256 =
            256 * (m.data.getD 2 0).val + (m.data.getD 3 0).val := by
          have := (m.data.getD 2 0).isLt
          omega
        simp only [h1, h2, h3, hc, and_self, if_true, hp, origDstOf]
      · have hc : ¬ (m.level = SOL_IP ∧ m.typ = IP_RECVORIGDSTADDR ∧ 16 ≤ m.data.length ∧
            (m.data.getD 0 0).val + 256 * (m.data.getD 1 0).val = AF_INET) :=
          fun h => h3 h.2.2.2
        rw [if_pos h1, if_pos h2]
        dsimp only
        rw [if_neg h3, if_neg hc]
    · have hc : ¬ (m.level = SOL_IP ∧ m.typ = IP_RECVORIGDSTADDR ∧ 16 ≤ m.data.length ∧
          (m.data.getD 0 0).val + 256 * (m.data.getD 1 0).val = AF_INET) :=
        fun h => h2 h.2.2.1
      rw [if_pos h1, if_neg h2]
      dsimp only
      rw [if_neg hc]
  · have hc : ¬ (m.level = SOL_IP ∧ m.typ = IP_RECVORIGDSTADDR ∧ 16 ≤ m.data.length ∧
        (m.data.getD 0 0).val + 256 * (m.data.getD 1 0).val = AF_INET) :=
      fun h => h1 ⟨h.1, h.2.1⟩
    rw [if_neg h1, if_neg hc]

theorem getOriginDstLoop_none (acc : Option UDPAddr) (ms : List SocketControlMessage)
    (h : ∀ m ∈ ms, ¬ carriesOrigDst m) : getOriginDstLoop acc ms = acc := by
  induction ms generalizing acc with
  | nil => rfl
  | cons m ms ih =>
    rw [getOriginDstLoop_cons, if_neg (h m (List.mem_cons_self _ _))]
    exact ih acc (fun m' hm' => h m' (List.mem_cons_of_mem _ hm'))

theorem getOriginDstLoop_last (acc : Option UDPAddr) (pre : List SocketControlMessage)
    (m : SocketControlMessage) (post : List SocketControlMessage)
    (hm : carriesOrigDst m) (hpost : ∀ m' ∈ post, ¬ carriesOrigDst m') :
    getOriginDstLoop acc (pre ++ m :: post) = some (origDstOf m) := by
  induction pre generalizing acc with
  | nil =>
    rw [List.nil_append, getOriginDstLoop_cons, if_pos hm]
    exact getOriginDstLoop_none _ _ hpost
  | cons x pre ih =>
    rw [List.cons_append, getOriginDstLoop_cons]
    split_ifs
    · exact ih _
    · exact ih _

theorem exists_last_carrier (msgs : List SocketControlMessage)
    (h : ∃ m ∈ msgs, carriesOrigDst m) :
    ∃ pre m post, msgs = pre ++ m :: post ∧ carriesOrigDst m ∧
      ∀ x ∈ post, ¬ carriesOrigDst x := by
  induction msgs with
  | nil =>
    obtain ⟨m, hm, _⟩ := h
    simp at hm
  | cons x xs ih =>
    by_cases hxs : ∃ y ∈ xs, carriesOrigDst y
    · obtain ⟨pre, m, post, e, hc, hp⟩ := ih hxs
      exact ⟨x :: pre, m, post, by rw [e]; rfl, hc, hp⟩
    · push_neg at hxs
      obtain ⟨m, hmem, hm⟩ := h
      rcases List.mem_cons.mp hmem with hmx | hmxs
      · subst hmx
        exact ⟨[], m, xs, rfl, hm, hxs⟩
      · exact absurd hm (hxs m hmxs)

theorem origDstOf_port_le (m : SocketControlMessage) : (origDstOf m).port ≤ 65535 := by
  unfold origDstOf
  have h2 := (m.data.getD 2 0).isLt
  have h3 := (m.data.getD 3 0).isLt
  simp only
  omega

/-- C9: on parsed control messages `getOriginDst` fails exactly when no message has level
`SOL_IP`, type `IP_RECVORIGDSTADDR` and data decoding to an `AF_INET` sockaddr; otherwise it
returns the address of the last such message: the four address bytes in order, and the
port `256 * b0 + b1` of the two port bytes in network order, which is at most 65535. -/
theorem getOriginDst_spec (msgs : List SocketControlMessage) :
    ((∃ e, getOriginDst (.ok msgs) = .error e) ↔ ∀ m ∈ msgs, ¬ carriesOrigDst m) ∧
    (∀ pre m post, msgs = pre ++ m :: post → carriesOrigDst m →
      (∀ m' ∈ post, ¬ carriesOrigDst m') →
        getOriginDst (.ok msgs) = .ok (origDstOf m) ∧ (origDstOf m).port ≤ 65535) := by
  have hlast : ∀ pre m post, msgs = pre ++ m :: post → carriesOrigDst m →
      (∀ m' ∈ post, ¬ carriesOrigDst m') → getOriginDst (.ok msgs) = .ok (origDstOf m) := by
    intro pre m post he hm hpost
    subst he
    simp [getOriginDst, getOriginDstLoop_last none pre m post hm hpost]
  refine ⟨⟨fun ⟨e, he⟩ => ?_, fun h => ?_⟩, fun pre m post he hm hpost =>
    ⟨hlast pre m post he hm hpost, origDstOf_port_le m⟩⟩
  · by_contra hex
    push_neg at hex
    obtain ⟨pre, m', post, e, hc, hp⟩ := exists_last_carrier msgs hex
    rw [hlast pre m' post e hc hp] at he
    cases he
  · exact ⟨"get origin dst fail", by simp [getOriginDst, getOriginDstLoop_none none msgs h]⟩

theorem getOriginDst_spec_witness :
    [exampleOtherMsg, exampleOrigDstMsg, exampleOtherMsg] =
      [exampleOtherMsg] ++ exampleOrigDstMsg :: [exampleOtherMsg] ∧
    carriesOrigDst exampleOrigDstMsg ∧
    (∀ m' ∈ [exampleOtherMsg], ¬ carriesOrigDst m') ∧
    (getOriginDst (.ok [exampleOtherMsg, exampleOrigDstMsg, exampleOtherMsg]) =
        .ok (origDstOf exampleOrigDstMsg) ∧
      (origDstOf exampleOrigDstMsg).port ≤ 65535) ∧
    origDstOf exampleOrigDstMsg = { ip := { a := 10, b := 0, c := 0, d := 2 }, port := 5300 } ∧
    ((∃ e, getOriginDst (.ok [exampleOtherMsg]) = .error e) ↔
      ∀ m ∈ [exampleOtherMsg], ¬ carriesOrigDst m) :=
  ⟨rfl, by decide, by decide,
   (getOriginDst_spec [exampleOtherMsg, exampleOrigDstMsg, exampleOtherMsg]).2
     [exampleOtherMsg] exampleOrigDstMsg [exampleOtherMsg] rfl (by decide) (by decide),
   by decide,
   (getOriginDst_spec [exampleOtherMsg]).1⟩

/-! ### The flow key -/

theorem append_colon_inj (a b c d : List Char) (hb : ':' ∉ b) (hd : ':' ∉ d)
    (h : a ++ ':' :: b = c ++ ':' :: d) : a = c ∧ b = d := by
  induction a generalizing c with
  | nil =>
    cases c with
    | nil => simpa using h
    | cons y c =>
      simp only [List.nil_append, List.cons_append, List.cons.injEq] at h
      exact absurd (h.2 ▸ List.mem_append_right c (List.mem_cons_self _ _)) hb
  | cons x a ih =>
    cases c with
    | nil =>
      simp only [List.nil_append, List.cons_append, List.cons.injEq] at h
      exact absurd (h.2 ▸ List.mem_append_right a (List.mem_cons_self _ _)) hd
    | cons y c =>
      simp only [List.cons_append, List.cons.injEq] at h
      obtain ⟨hac, hbd⟩ := ih c h.2
      exact ⟨by rw [h.1, hac], hbd⟩

theorem mem_intercalate_singleton (sep c : Char) (ls : List (List Char))
    (h : c ∈ [sep].intercalate ls) : c = sep ∨ ∃ l ∈ ls, c ∈ l := by
  induction ls with
  | nil => simp [List.intercalate] at h
  | cons x xs ih =>
    cases xs with
    | nil =>
      simp [List.intercalate, List.intersperse] at h
      exact Or.inr ⟨x, List.mem_cons_self _ _, h⟩
    | cons y ys =>
      simp only [List.intercalate, List.intersperse, List.flatten_cons, List.mem_append,
        List.mem_singleton] at h
      rcases h with h | h | h
      · exact Or.inr ⟨x, List.mem_cons_self _ _, h⟩
      · exact Or.inl h
      · rcases ih h with h' | ⟨l, hl, hc⟩
        · exact Or.inl h'
        · exact Or.inr ⟨l, List.mem_cons_of_mem _ hl, hc⟩

theorem isDecimal_no_colon (s : List Char) (h : isDecimal s = true) : ':' ∉ s := by
  intro hc
  simp only [isDecimal, Bool.and_eq_true, List.all_eq_true] at h
  have := h.2 ':' hc
  exact absurd this (by decide)

theorem isDottedQuad_no_colon (s : String) (h : isDottedQuad s = true) : ':' ∉ s.toList := by
  intro hc
  simp only [isDottedQuad, Bool.and_eq_true, List.all_eq_true] at h
  rw [← @List.intercalate_splitOn _ s.toList '.' _] at hc
  rcases mem_intercalate_singleton '.' ':' _ hc with h' | ⟨l, hl, hcl⟩
  · exact absurd h' (by decide)
  · exact isDecimal_no_colon l (h.2 l hl).1 hcl

theorem flowKey_toList (sip sport dip dport : String) :
    (flowKey sip sport dip dport).toList =
      (sip.toList ++ ':' :: sport.toList ++ ':' :: dip.toList) ++ ':' :: dport.toList := by
  simp [flowKey, String.toList]

/-- A flow key is split unambiguously from the right when the last three fields hold no
colon. -/
theorem flowKey_inj_of_no_colon (sip1 sport1 dip1 dport1 sip2 sport2 dip2 dport2 : String)
    (hs1 : ':' ∉ sport1.toList) (hi1 : ':' ∉ dip1.toList) (hd1 : ':' ∉ dport1.toList)
    (hs2 : ':' ∉ sport2.toList) (hi2 : ':' ∉ dip2.toList) (hd2 : ':' ∉ dport2.toList)
    (h : flowKey sip1 sport1 dip1 dport1 = flowKey sip2 sport2 dip2 dport2) :
    sip1 = sip2 ∧ sport1 = sport2 ∧ dip1 = dip2 ∧ dport1 = dport2 := by
  have hl := congrArg String.toList h
  rw [flowKey_toList, flowKey_toList] at hl
  obtain ⟨h3, hdport⟩ := append_colon_inj _ _ _ _ hd1 hd2 hl
  have h3' : (sip1.toList ++ ':' :: sport1.toList) ++ ':' :: dip1.toList =
      (sip2.toList ++ ':' :: sport2.toList) ++ ':' :: dip2.toList := by
    simpa using h3
  obtain ⟨h2, hdip⟩ := append_colon_inj _ _ _ _ hi1 hi2 h3'
  obtain ⟨hsip, hsport⟩ := append_colon_inj _ _ _ _ hs1 hs2 h2
  exact ⟨String.ext hsip, String.ext hsport, String.ext hdip, String.ext hdport⟩

/-- C8: the flow key `sip:sport:dip:dport` determines the 4-tuple whenever the two ports
are decimal numbers and the destination IP is a dotted quad. -/
theorem flowKey_injective (sip1 sport1 dip1 dport1 sip2 sport2 dip2 dport2 : String)
    (hs1 : isPort sport1 = true) (hi1 : isDottedQuad dip1 = true) (hd1 : isPort dport1 = true)
    (hs2 : isPort sport2 = true) (hi2 : isDottedQuad dip2 = true) (hd2 : isPort dport2 = true)
    (h : flowKey sip1 sport1 dip1 dport1 = flowKey sip2 sport2 dip2 dport2) :
    sip1 = sip2 ∧ sport1 = sport2 ∧ dip1 = dip2 ∧ dport1 = dport2 :=
  flowKey_inj_of_no_colon sip1 sport1 dip1 dport1 sip2 sport2 dip2 dport2
    (isDecimal_no_colon _ hs1) (isDottedQuad_no_colon _ hi1) (isDecimal_no_colon _ hd1)
    (isDecimal_no_colon _ hs2) (isDottedQuad_no_colon _ hi2) (isDecimal_no_colon _ hd2) h

theorem flowKey_injective_witness :
    isPort "40000" = true ∧ isDottedQuad "10.0.0.2" = true ∧ isPort "5300" = true ∧
    flowKey "198.51.100.7" "40000" "10.0.0.2" "5300" = "198.51.100.7:40000:10.0.0.2:5300" ∧
    ("198.51.100.7" = "198.51." ++ "100.7" ∧ "40000" = "40000" ∧ "10.0.0.2" = "10.0.0.2" ∧
      "5300" = "5300") :=
  ⟨by decide, by decide, by decide, by decide,
   flowKey_injective "198.51.100.7" "40000" "10.0.0.2" "5300"
     ("198.51." ++ "100.7") "40000" "10.0.0.2" "5300"
     (by decide) (by decide) (by decide) (by decide) (by decide) (by decide) (by decide)⟩

/-! ### `UDPForward.ListenAndServe` -/

/-- C5 (the code departs from the claim): the header write of a new flow fails, the mapping
stays in `streams`, and the next datagram of the flow is written as a body frame to the
sub-stream on which no header was written successfully; no return-path worker was started. -/
theorem ListenAndServe_body_without_header :
    ListenAndServe [headerFailDatagram, nextDatagram] =
      [.openStream 0 "10.0.0.2",
       .writeHeader 0 "udp" "198.51.100.7" "40000" "127.0.0.1" "5300" false,
       .writeBody 0 [80, 79, 78, 71] true,
       .closeStream 0] ∧
    bodiesFollowHeader [] (ListenAndServe [headerFailDatagram, nextDatagram]) = false := by
  decide

/-! ### `UDPForward.forwardUDP` -/

theorem bigEndianUint16_bodyFrame (n : Nat) (h : n ≤ 65535) :
    bigEndianUint16 [Fin.ofNat (n / 256), Fin.ofNat (n % 256)] = n := by
  simp only [bigEndianUint16, List.getD_cons_zero, List.getD_cons_succ, Fin.ofNat]
  omega

/-- One iteration of the loop on a stream that starts with a body frame. -/
theorem forwardUDPLoop_frame (fuel : Nat) (d rest : List Byte) (sendOk : Nat → Bool) (k : Nat)
    (fromaddr toaddr : UDPAddr) (h : d.length ≤ 65535) :
    forwardUDPLoop (fuel + 1) (bodyFrame d ++ rest) sendOk k fromaddr toaddr =
      { fromaddr := fromaddr, toaddr := toaddr, buf := d, ok := sendOk k } ::
        forwardUDPLoop fuel rest sendOk (k + 1) fromaddr toaddr := by
  have h2 : readFull 2 (bodyFrame d ++ rest) =
      some ([Fin.ofNat (d.length / 256), Fin.ofNat (d.length % 256)], d ++ rest) := by
    simp [readFull, bodyFrame]
  have hd : readFull d.length (d ++ rest) = some (d, rest) := by
    simp [readFull]
  rw [forwardUDPLoop, h2]
  simp only [bigEndianUint16_bodyFrame d.length h, hd]

theorem forwardUDPLoop_frames (sendOk : Nat → Bool) (fromaddr toaddr : UDPAddr) :
    ∀ (ds : List (List Byte)) (fuel k : Nat), ds.length < fuel →
      (∀ d ∈ ds, d.length ≤ 65535) →
      forwardUDPLoop fuel (ds.map bodyFrame).flatten sendOk k fromaddr toaddr =
        (ds.enumFrom k).map
          (fun p => { fromaddr := fromaddr, toaddr := toaddr, buf := p.2, ok := sendOk p.1 }) := by
  intro ds
  induction ds with
  | nil =>
    intro fuel k hf _
    cases fuel with
    | zero => simp at hf
    | succ f => simp [forwardUDPLoop, readFull]
  | cons d ds ih =>
    intro fuel k hf hlen
    cases fuel with
    | zero => simp at hf
    | succ f =>
      simp only [List.map_cons, List.flatten_cons, List.enumFrom_cons]
      rw [forwardUDPLoop_frame f d _ sendOk k fromaddr toaddr (hlen d (List.mem_cons_self _ _))]
      rw [ih f (k + 1) (by simpa using hf) (fun x hx => hlen x (List.mem_cons_of_mem _ hx))]

theorem length_le_flatten_bodyFrame (ds : List (List Byte)) :
    ds.length ≤ (ds.map bodyFrame).flatten.length := by
  induction ds with
  | nil => simp
  | cons d ds ih =>
    simp only [List.map_cons, List.flatten_cons, List.length_append, List.length_cons, bodyFrame]
    omega

/-- The new-flow branch of `ListenAndServe` starts `forwardUDP` with the original destination
as `fromaddr` and the remote address as `toaddr`. -/
theorem onDatagram_spawn (st : UDPState) (d : Datagram) (origindst : UDPAddr)
    (ho : getOriginDst d.oob = .ok origindst)
    (hnew : st.streams.lookup (flowKey (splitHostPort d.raddr).1 (splitHostPort d.raddr).2
      (splitHostPort origindst).1 (splitHostPort origindst).2) = none)
    (hs : d.sessFound = true) (hopen : d.openOk = true) (hh : d.headerOk = true) :
    (onDatagram st d).trace = st.trace ++
      [.openStream st.opened (splitHostPort origindst).1,
       .writeHeader st.opened "udp" (splitHostPort d.raddr).1 (splitHostPort d.raddr).2
         "127.0.0.1" (splitHostPort origindst).2 true,
       .spawnForwardUDP st.opened origindst d.raddr,
       .writeBody st.opened d.payload d.bodyOk] := by
  simp [onDatagram, ho, hnew, hs, hopen, hh, writeBody, List.lookup]

/-- C6: when the sub-stream delivers the body frames of the datagrams `ds` (each of at most
65535 bytes) and then ends, `forwardUDP` makes exactly one raw send per datagram, in order,
with that datagram as payload and with the `fromaddr` and `toaddr` it was started with,
whatever the outcome of each send, and then ends; `ListenAndServe` starts it with the
original destination as `fromaddr` and the remote address as `toaddr`. -/
theorem forwardUDP_frames (ds : List (List Byte)) (h : ∀ d ∈ ds, d.length ≤ 65535)
    (sendOk : Nat → Bool) (fromaddr toaddr : UDPAddr) :
    forwardUDP (ds.map bodyFrame).flatten sendOk fromaddr toaddr =
        (ds.enumFrom 0).map
          (fun p => { fromaddr := fromaddr, toaddr := toaddr, buf := p.2, ok := sendOk p.1 }) ∧
    (∀ (st : UDPState) (d : Datagram) (origindst : UDPAddr),
      getOriginDst d.oob = .ok origindst →
      st.streams.lookup (flowKey (splitHostPort d.raddr).1 (splitHostPort d.raddr).2
        (splitHostPort origindst).1 (splitHostPort origindst).2) = none →
      d.sessFound = true → d.openOk = true → d.headerOk = true →
      UDPEvent.spawnForwardUDP st.opened origindst d.raddr ∈ (onDatagram st d).trace) := by
  refine ⟨?_, fun st d origindst ho hnew hs hopen hh => ?_⟩
  · unfold forwardUDP
    exact forwardUDPLoop_frames sendOk fromaddr toaddr ds _ 0
      (Nat.lt_succ_of_le (length_le_flatten_bodyFrame ds)) h
  · rw [onDatagram_spawn st d origindst ho hnew hs hopen hh]
    simp

theorem forwardUDP_frames_witness :
    (∀ d ∈ [[80, 79, 78, 71], [], [33]], d.length ≤ 65535) ∧
    forwardUDP [0, 4, 80, 79, 78, 71, 0, 0, 0, 1, 33] (fun k => decide (k ≠ 0))
        { ip := { a := 10, b := 0, c := 0, d := 2 }, port := 5300 }
        { ip := { a := 198, b := 51, c := 100, d := 7 }, port := 40000 } =
      [{ fromaddr := { ip := { a := 10, b := 0, c := 0, d := 2 }, port := 5300 },
         toaddr := { ip := { a := 198, b := 51, c := 100, d := 7 }, port := 40000 },
         buf := [80, 79, 78, 71], ok := false },
       { fromaddr := { ip := { a := 10, b := 0, c := 0, d := 2 }, port := 5300 },
         toaddr := { ip := { a := 198, b := 51, c := 100, d := 7 }, port := 40000 },
         buf := [], ok := true },
       { fromaddr := { ip := { a := 10, b := 0, c := 0, d := 2 }, port := 5300 },
         toaddr := { ip := { a := 198, b := 51, c := 100, d := 7 }, port := 40000 },
         buf := [33], ok := true }] ∧
    UDPEvent.spawnForwardUDP 0 { ip := { a := 10, b := 0, c := 0, d := 2 }, port := 5300 }
        nextDatagram.raddr ∈
      (onDatagram { streams := [], opened := 0, trace := [] } nextDatagram).trace :=
  ⟨by decide,
   (forwardUDP_frames [[80, 79, 78, 71], [], [33]] (by decide) (fun k => decide (k ≠ 0))
      { ip := { a := 10, b := 0, c := 0, d := 2 }, port := 5300 }
      { ip := { a := 198, b := 51, c := 100, d := 7 }, port := 40000 }).1,
   (forwardUDP_frames [] (by decide) (fun _ => true)
      { ip := { a := 10, b := 0, c := 0, d := 2 }, port := 5300 }
      { ip := { a := 10, b := 0, c := 0, d := 2 }, port := 5300 }).2
      { streams := [], opened := 0, trace := [] } nextDatagram
      { ip := { a := 10, b := 0, c := 0, d := 2 }, port := 5300 }
      rfl (by decide) rfl rfl rfl⟩

/-! ### Decimal text of ports and addresses -/

theorem toDigitsCore_eq (fuel : Nat) : ∀ (n : Nat) (ds : List Char), n < fuel →
    Nat.toDigitsCore 10 fuel n ds =
      (if n = 0 then [0] else (Nat.digits 10 n).reverse).map Nat.digitChar ++ ds := by
  induction fuel with
  | zero => intro n ds h; omega
  | succ f ih =>
    intro n ds h
    rw [Nat.toDigitsCore]
    by_cases h0 : n / 10 = 0
    · have hlt : n < 10 := by omega
      simp only [h0, if_true]
      by_cases hn : n = 0
      · subst hn; simp
      · have hd : Nat.digits 10 n = [n] := Nat.digits_of_lt 10 n hn hlt
        simp [hn, hd, Nat.mod_eq_of_lt hlt]
    · have hn : n ≠ 0 := by omega
      have hpos : 0 < n := by omega
      simp only [h0, if_false, hn]
      rw [ih (n / 10) _ (by omega)]
      simp only [h0, if_false]
      rw [Nat.digits_def' (by decide) hpos]
      simp

theorem toString_toList (n : Nat) :
    (toString n).toList = (if n = 0 then [0] else (Nat.digits 10 n).reverse).map Nat.digitChar := by
  have h : (toString n).toList = Nat.toDigits 10 n := rfl
  rw [h, Nat.toDigits, toDigitsCore_eq (n + 1) n [] (by omega)]
  simp

theorem decimalDigits_lt (n : Nat) : ∀ d ∈ decimalDigits n, d < 10 := by
  intro d hd
  unfold decimalDigits at hd
  split_ifs at hd with h
  · simp at hd; omega
  · exact Nat.digits_lt_base (by decide) (List.mem_reverse.mp hd)

theorem decimalDigits_ne_nil (n : Nat) : decimalDigits n ≠ [] := by
  unfold decimalDigits
  split_ifs with h
  · simp
  · simpa using Nat.digits_ne_nil_iff_ne_zero.mpr h

theorem ofDigits_decimalDigits (n : Nat) : Nat.ofDigits 10 (decimalDigits n).reverse = n := by
  unfold decimalDigits
  split_ifs with h
  · subst h; simp
  · rw [List.reverse_reverse, Nat.ofDigits_digits]

theorem natDigitChar_injOn : ∀ a < 10, ∀ b < 10, Nat.digitChar a = Nat.digitChar b → a = b := by
  decide

theorem natDigitChar_isDigit : ∀ a < 10, (Nat.digitChar a).isDigit = true := by decide

theorem map_natDigitChar_injective :
    ∀ l₁ l₂ : List Nat, (∀ d ∈ l₁, d < 10) → (∀ d ∈ l₂, d < 10) →
      l₁.map Nat.digitChar = l₂.map Nat.digitChar → l₁ = l₂ := by
  intro l₁
  induction l₁ with
  | nil =>
    intro l₂ _ _ h
    cases l₂ with
    | nil => rfl
    | cons b t => simp at h
  | cons a t ih =>
    intro l₂ h₁ h₂ h
    cases l₂ with
    | nil => simp at h
    | cons b u =>
      simp only [List.map_cons, List.cons.injEq] at h
      have hab : a = b :=
        natDigitChar_injOn a (h₁ a (List.mem_cons_self _ _)) b (h₂ b (List.mem_cons_self _ _)) h.1
      have htu : t = u :=
        ih u (fun d hd => h₁ d (List.mem_cons_of_mem _ hd))
          (fun d hd => h₂ d (List.mem_cons_of_mem _ hd)) h.2
      rw [hab, htu]

theorem toString_nat_injective (a b : Nat) (h : toString a = toString b) : a = b := by
  have hl := congrArg String.toList h
  rw [toString_toList, toString_toList] at hl
  have hd : decimalDigits a = decimalDigits b :=
    map_natDigitChar_injective _ _ (decimalDigits_lt a) (decimalDigits_lt b) hl
  rw [← ofDigits_decimalDigits a, ← ofDigits_decimalDigits b, hd]

theorem toString_nat_digits (n : Nat) :
    (toString n).toList ≠ [] ∧ ∀ c ∈ (toString n).toList, c.isDigit = true := by
  rw [toString_toList]
  refine ⟨?_, ?_⟩
  · simpa using decimalDigits_ne_nil n
  · intro c hc
    rw [List.mem_map] at hc
    obtain ⟨d, hd, rfl⟩ := hc
    exact natDigitChar_isDigit d (decimalDigits_lt n d hd)

set_option maxRecDepth 100000 in
theorem toString_byte_length : ∀ b : Fin 256, (toString b.val).length ≤ 3 := by decide

theorem isPort_toString (n : Nat) : isPort (toString n) = true := by
  obtain ⟨hne, hall⟩ := toString_nat_digits n
  simp only [isPort, isDecimal, Bool.and_eq_true, List.all_eq_true, Bool.not_eq_true']
  exact ⟨by simpa using hne, hall⟩

theorem toString_nat_no_dot (n : Nat) : '.' ∉ (toString n).toList := by
  intro h
  exact absurd ((toString_nat_digits n).2 '.' h) (by decide)

theorem IPv4_String_toList (ip : IPv4) :
    ip.String.toList = ['.'].intercalate
      [(toString ip.a.val).toList, (toString ip.b.val).toList, (toString ip.c.val).toList,
       (toString ip.d.val).toList] := by
  simp [IPv4.String, String.toList, List.intercalate, List.intersperse]

theorem IPv4_String_fields (ip : IPv4) :
    ip.String.toList.splitOn '.' =
      [(toString ip.a.val).toList, (toString ip.b.val).toList, (toString ip.c.val).toList,
       (toString ip.d.val).toList] := by
  rw [IPv4_String_toList]
  apply List.splitOn_intercalate
  · intro l hl
    simp only [List.mem_cons, List.mem_singleton, List.not_mem_nil, or_false] at hl
    rcases hl with rfl | rfl | rfl | rfl <;> exact toString_nat_no_dot _
  · simp

/-- The host text of an IPv4 `UDPAddr` is a dotted quad and its port text a decimal number:
the keys `ListenAndServe` builds meet the hypotheses of `flowKey_injective`. -/
theorem splitHostPort_wellFormed (addr : UDPAddr) :
    isDottedQuad (splitHostPort addr).1 = true ∧ isPort (splitHostPort addr).2 = true := by
  refine ⟨?_, isPort_toString _⟩
  have hdec : ∀ b : Fin 256, (isDecimal (toString b.val).toList &&
      decide ((toString b.val).toList.length ≤ 3)) = true := by
    intro b
    have h1 : isDecimal (toString b.val).toList = true := isPort_toString b.val
    have h2 : (toString b.val).toList.length ≤ 3 := toString_byte_length b
    rw [Bool.and_eq_true]
    exact ⟨h1, decide_eq_true h2⟩
  simp only [splitHostPort, isDottedQuad, IPv4_String_fields, Bool.and_eq_true, List.all_eq_true]
  refine ⟨by simp, ?_⟩
  intro f hf
  simp only [List.mem_cons, List.mem_singleton, List.not_mem_nil, or_false] at hf
  rcases hf with rfl | rfl | rfl | rfl <;> simpa using hdec _

theorem IPv4_String_injective (ip1 ip2 : IPv4) (h : ip1.String = ip2.String) : ip1 = ip2 := by
  have hf := congrArg (fun s => s.toList.splitOn '.') h
  simp only [IPv4_String_fields, List.cons.injEq, and_true] at hf
  obtain ⟨ha, hb, hc, hd⟩ := hf
  obtain ⟨a1, b1, c1, d1⟩ := ip1
  obtain ⟨a2, b2, c2, d2⟩ := ip2
  simp only at ha hb hc hd
  have ea : a1 = a2 := Fin.ext (toString_nat_injective _ _ (String.ext ha))
  have eb : b1 = b2 := Fin.ext (toString_nat_injective _ _ (String.ext hb))
  have ec : c1 = c2 := Fin.ext (toString_nat_injective _ _ (String.ext hc))
  have ed : d1 = d2 := Fin.ext (toString_nat_injective _ _ (String.ext hd))
  rw [ea, eb, ec, ed]

theorem splitHostPort_injective (a1 a2 : UDPAddr) (h : splitHostPort a1 = splitHostPort a2) :
    a1 = a2 := by
  simp only [splitHostPort, Prod.mk.injEq] at h
  obtain ⟨ip1, p1⟩ := a1
  obtain ⟨ip2, p2⟩ := a2
  simp only at h
  rw [IPv4_String_injective ip1 ip2 h.1, toString_nat_injective p1 p2 h.2]

/-- The key `ListenAndServe` builds for a datagram determines the remote address and the
original destination: two distinct flows never share an entry of `streams`. -/
theorem ListenAndServe_key_injective (raddr1 origindst1 raddr2 origindst2 : UDPAddr)
    (h : flowKey (splitHostPort raddr1).1 (splitHostPort raddr1).2
          (splitHostPort origindst1).1 (splitHostPort origindst1).2 =
        flowKey (splitHostPort raddr2).1 (splitHostPort raddr2).2
          (splitHostPort origindst2).1 (splitHostPort origindst2).2) :
    raddr1 = raddr2 ∧ origindst1 = origindst2 := by
  obtain ⟨h1, h2, h3, h4⟩ := flowKey_inj_of_no_colon _ _ _ _ _ _ _ _
    (isDecimal_no_colon _ (splitHostPort_wellFormed raddr1).2)
    (isDottedQuad_no_colon _ (splitHostPort_wellFormed origindst1).1)
    (isDecimal_no_colon _ (splitHostPort_wellFormed origindst1).2)
    (isDecimal_no_colon _ (splitHostPort_wellFormed raddr2).2)
    (isDottedQuad_no_colon _ (splitHostPort_wellFormed origindst2).1)
    (isDecimal_no_colon _ (splitHostPort_wellFormed origindst2).2) h
  exact ⟨splitHostPort_injective _ _ (Prod.ext h1 h2), splitHostPort_injective _ _ (Prod.ext h3 h4)⟩

/-! ### What `ListenAndServe` does guarantee about headers -/

theorem headerAttemptedFirst_append (t₁ t₂ : List UDPEvent) :
    ∀ seen, headerAttemptedFirst seen (t₁ ++ t₂) =
      (headerAttemptedFirst seen t₁).bind (fun seen' => headerAttemptedFirst seen' t₂) := by
  induction t₁ with
  | nil => intro seen; rfl
  | cons e t ih =>
    intro seen
    cases e <;> simp only [List.cons_append, headerAttemptedFirst] <;> (try split_ifs) <;>
      first
        | exact ih _
        | rfl

theorem headerAttemptedFirst_close (l : List (String × Nat)) (seen : List Nat) :
    headerAttemptedFirst seen (l.map (fun e => UDPEvent.closeStream e.2)) = some seen := by
  induction l with
  | nil => rfl
  | cons e l ih => simpa [headerAttemptedFirst] using ih

theorem lookup_mem (key : String) (l : List (String × Nat)) (stream : Nat)
    (h : l.lookup key = some stream) : ∃ e ∈ l, e.2 = stream := by
  induction l with
  | nil => simp [List.lookup] at h
  | cons e l ih =>
    obtain ⟨k, v⟩ := e
    simp only [List.lookup] at h
    split at h
    · exact ⟨(k, v), List.mem_cons_self _ _, by simpa using h⟩
    · obtain ⟨e', he', hv⟩ := ih h
      exact ⟨e', List.mem_cons_of_mem _ he', hv⟩

theorem writeBody_inv (st : UDPState) (key : String) (d : Datagram) (h : UDPInv st) :
    UDPInv (writeBody st key d) := by
  unfold writeBody
  split
  · exact h
  · rename_i stream hl
    obtain ⟨seen, hc, hs, ho⟩ := h
    obtain ⟨e, he, hv⟩ := lookup_mem _ _ _ hl
    have hin : stream ∈ seen := hv ▸ hs e he
    refine ⟨seen, ?_, hs, ho⟩
    simp [headerAttemptedFirst_append, hc, headerAttemptedFirst, hin]

/-- The new-flow branch keeps the invariant, whatever is appended after the header write as
long as it passes the check. -/
theorem newFlow_inv (st : UDPState) (key dip sip sport dport : String) (ok : Bool)
    (extra : List UDPEvent) (h : UDPInv st)
    (hextra : ∀ seen, st.opened ∈ seen → headerAttemptedFirst seen extra = some seen) :
    UDPInv
      { streams := (key, st.opened) :: st.streams.filter (fun e => e.1 ≠ key),
        opened := st.opened + 1,
        trace := st.trace ++
          [.openStream st.opened dip,
           .writeHeader st.opened "udp" sip sport "127.0.0.1" dport ok] ++ extra } := by
  obtain ⟨seen, hc, hs, ho⟩ := h
  have hfresh : st.opened ∉ seen := fun hm => Nat.lt_irrefl _ (ho _ hm)
  refine ⟨st.opened :: seen, ?_, ?_, ?_⟩
  · simp only [headerAttemptedFirst_append, hc, Option.bind, headerAttemptedFirst,
      if_neg hfresh]
    exact hextra _ (List.mem_cons_self _ _)
  · intro e he
    rcases List.mem_cons.mp he with rfl | he'
    · exact List.mem_cons_self _ _
    · exact List.mem_cons_of_mem _ (hs e (List.mem_of_mem_filter he'))
  · intro stream hm
    rcases List.mem_cons.mp hm with rfl | hm'
    · exact Nat.lt_succ_self _
    · exact Nat.lt_succ_of_lt (ho _ hm')

theorem onDatagram_inv (st : UDPState) (d : Datagram) (h : UDPInv st) :
    UDPInv (onDatagram st d) := by
  unfold onDatagram
  split
  · exact h
  · rename_i origindst _
    generalize splitHostPort origindst = od
    generalize splitHostPort d.raddr = rd
    obtain ⟨dip, dport⟩ := od
    obtain ⟨sip, sport⟩ := rd
    simp only
    generalize flowKey sip sport dip dport = key
    split
    · exact writeBody_inv _ _ _ h
    · by_cases hs : d.sessFound = true
      · by_cases ho : d.openOk = true
        · by_cases hh : d.headerOk = true
          · simp only [hs, ho, hh, not_true_eq_false, if_false]
            have hn := newFlow_inv st key dip sip sport dport true
              [.spawnForwardUDP st.opened origindst d.raddr] h
              (fun seen _ => by simp [headerAttemptedFirst])
            have hw := writeBody_inv _ key d hn
            simpa [List.append_assoc] using hw
          · simp only [hs, ho, hh, not_true_eq_false, if_false, not_false_eq_true, if_true]
            have hn := newFlow_inv st key dip sip sport dport d.headerOk [] h
              (fun seen _ => rfl)
            simpa [hh] using hn
        · simp only [hs, ho, not_true_eq_false, if_false, not_false_eq_true, if_true]
          exact h
      · simp only [hs, not_false_eq_true, if_true]
        exact h

/-- On every sub-stream `ListenAndServe` attempts the header write first and attempts it
once; body frames follow that attempt, whether it succeeded or not. -/
theorem ListenAndServe_header_attempted_first (ds : List Datagram) :
    (headerAttemptedFirst [] (ListenAndServe ds)).isSome = true := by
  have hfold : ∀ (ds : List Datagram) (st : UDPState), UDPInv st →
      UDPInv (ds.foldl onDatagram st) := by
    intro ds
    induction ds with
    | nil => intro st h; exact h
    | cons d ds ih => intro st h; exact ih _ (onDatagram_inv st d h)
  obtain ⟨seen, hc, _, _⟩ := hfold ds { streams := [], opened := 0, trace := [] }
    ⟨[], rfl, by simp, by simp⟩
  simp [ListenAndServe, headerAttemptedFirst_append, hc, headerAttemptedFirst_close]

end Opennotr
